import Mathlib

/-!
Verification of the datetime-axis helper (`DG.DateTimeAxisViewHelper`).

The source manipulates JavaScript `Date` objects through the field
constructor `new Date(year, month, day, hour, minute, second)` (months
0-based, out-of-range fields normalized by the calendar) and reads the
fields back with `getFullYear`, `getMonth`, `getDate`, `getHours`,
`getMinutes`, `getSeconds`; dates are compared through `valueOf`
(milliseconds since the epoch).  We embed dates as records of calendar
fields over a proleptic Gregorian calendar with no timezone offset (the
spec's data model: an instant decomposable into local calendar fields),
normalization as the carry of out-of-range fields, and `valueOf` as the
millisecond timestamp.
-/

/-- Gregorian leap-year test (proleptic, as in ECMAScript's DaysInYear). -/
def isLeap (y : Int) : Bool := (y % 4 == 0 && y % 100 != 0) || y % 400 == 0

/-- 1 if the year is leap, else 0. -/
def leapN (y : Int) : Int := if isLeap y then 1 else 0

/-- Number of days of month `m` (0-based: January = 0) of year `y`.
Out-of-range `m` falls into the default 31-day branch; it is only ever
used with `0 ≤ m < 12`. -/
def daysInMonth (y m : Int) : Int :=
  if m = 1 then (if isLeap y then 29 else 28)
  else if m = 3 ∨ m = 5 ∨ m = 8 ∨ m = 10 then 30
  else 31

/-- Days from January 1 to the first of month `m` (0-based) in year `y`. -/
def doyOfMonth (y m : Int) : Int :=
  if m ≤ 0 then 0
  else if m = 1 then 31
  else if m = 2 then 59 + leapN y
  else if m = 3 then 90 + leapN y
  else if m = 4 then 120 + leapN y
  else if m = 5 then 151 + leapN y
  else if m = 6 then 181 + leapN y
  else if m = 7 then 212 + leapN y
  else if m = 8 then 243 + leapN y
  else if m = 9 then 273 + leapN y
  else if m = 10 then 304 + leapN y
  else 334 + leapN y

/-- Day number (days since 1970-01-01) of January 1 of year `y`. -/
def daysBeforeYear (y : Int) : Int :=
  365 * y + (y - 1) / 4 - (y - 1) / 100 + (y - 1) / 400 + 1 - 719528

/-- Day number of the first of month `m` (0-based) of year `y`. -/
def monthStart (y m : Int) : Int := daysBeforeYear y + doyOfMonth y m

/-- Day number of the first of the linear month `L = 12*year + month`. -/
def monthStartL (L : Int) : Int := monthStart (L / 12) (L % 12)

/-- Days of the linear month `L = 12*year + month`. -/
def daysInMonthL (L : Int) : Int := daysInMonth (L / 12) (L % 12)

theorem daysInMonth_bounds (y m : Int) : 28 ≤ daysInMonth y m ∧ daysInMonth y m ≤ 31 := by
  unfold daysInMonth
  split_ifs <;> omega

theorem daysInMonthL_bounds (L : Int) : 28 ≤ daysInMonthL L ∧ daysInMonthL L ≤ 31 :=
  daysInMonth_bounds _ _

theorem leapN_eq (y : Int) :
    leapN y = if (y % 4 = 0 ∧ ¬ y % 100 = 0) ∨ y % 400 = 0 then 1 else 0 := by
  unfold leapN isLeap
  simp only [Bool.or_eq_true, Bool.and_eq_true, beq_iff_eq, bne_iff_ne, ne_eq]

theorem daysBeforeYear_succ (y : Int) :
    daysBeforeYear (y + 1) = daysBeforeYear y + 365 + leapN y := by
  rw [leapN_eq]
  unfold daysBeforeYear
  have h4 : (y + 1 - 1) / 4 = (y - 1) / 4 + (if y % 4 = 0 then 1 else 0) := by
    split_ifs <;> omega
  have h100 : (y + 1 - 1) / 100 = (y - 1) / 100 + (if y % 100 = 0 then 1 else 0) := by
    split_ifs <;> omega
  have h400 : (y + 1 - 1) / 400 = (y - 1) / 400 + (if y % 400 = 0 then 1 else 0) := by
    split_ifs <;> omega
  rw [h4, h100, h400]
  have h14 : y % 400 = 0 → y % 100 = 0 := by omega
  have h24 : y % 100 = 0 → y % 4 = 0 := by omega
  split_ifs <;> omega

theorem doyOfMonth_succ (y m : Int) (h0 : 0 ≤ m) (h1 : m ≤ 10) :
    doyOfMonth y (m + 1) = doyOfMonth y m + daysInMonth y m := by
  have hl : 0 ≤ leapN y ∧ leapN y ≤ 1 := by unfold leapN; split <;> omega
  interval_cases m <;>
    simp only [doyOfMonth, daysInMonth, leapN] <;> norm_num <;> split <;> omega

theorem doyOfMonth_11 (y : Int) : doyOfMonth y 11 = 334 + leapN y := by
  norm_num [doyOfMonth]

theorem monthStartL_succ (L : Int) :
    monthStartL (L + 1) = monthStartL L + daysInMonthL L := by
  unfold monthStartL daysInMonthL monthStart
  have hq : L = 12 * (L / 12) + L % 12 ∧ 0 ≤ L % 12 ∧ L % 12 < 12 := by omega
  by_cases h : L % 12 = 11
  · have hq1 : (L + 1) / 12 = L / 12 + 1 := by omega
    have hq2 : (L + 1) % 12 = 0 := by omega
    rw [hq1, hq2, h, daysBeforeYear_succ, doyOfMonth_11]
    have h0' : doyOfMonth (L / 12 + 1) 0 = 0 := by norm_num [doyOfMonth]
    have hd : daysInMonth (L / 12) 11 = 31 := by norm_num [daysInMonth]
    rw [h0', hd]
    omega
  · have hq1 : (L + 1) / 12 = L / 12 := by omega
    have hq2 : (L + 1) % 12 = L % 12 + 1 := by omega
    rw [hq1, hq2, doyOfMonth_succ (L / 12) (L % 12) (by omega) (by omega)]
    omega

theorem monthStartL_add (L : Int) (n : Nat) :
    monthStartL L + 28 * n ≤ monthStartL (L + n) := by
  induction n with
  | zero => simp
  | succ k ih =>
      have hs := monthStartL_succ (L + k)
      have hb := daysInMonthL_bounds (L + k)
      push_cast
      push_cast at ih
      have : (L : Int) + (k + 1) = (L + k) + 1 := by ring
      rw [this, hs]
      omega

theorem monthStartL_mono {L1 L2 : Int} (h : L1 ≤ L2) : monthStartL L1 ≤ monthStartL L2 := by
  have h1 := monthStartL_add L1 (L2 - L1).toNat
  have h2 : (L1 : Int) + (L2 - L1).toNat = L2 := by omega
  rw [h2] at h1
  omega

theorem monthStartL_next_le {L1 L2 : Int} (h : L1 < L2) :
    monthStartL L1 + daysInMonthL L1 ≤ monthStartL L2 := by
  have h1 := monthStartL_succ L1
  have h2 := monthStartL_mono (show L1 + 1 ≤ L2 by omega)
  omega

/-- A JavaScript `Date`, as its calendar fields: year, month (0-based),
day of month (1-based), hour, minute, second, millisecond. -/
structure JSDate where
  year : Int
  month : Int
  day : Int
  hour : Int
  minute : Int
  second : Int
  ms : Int
deriving DecidableEq

/-- The fields are in their calendar ranges. -/
def JSDate.Valid (d : JSDate) : Prop :=
  0 ≤ d.month ∧ d.month < 12 ∧ 1 ≤ d.day ∧ d.day ≤ daysInMonth d.year d.month ∧
  0 ≤ d.hour ∧ d.hour < 24 ∧ 0 ≤ d.minute ∧ d.minute < 60 ∧
  0 ≤ d.second ∧ d.second < 60 ∧ 0 ≤ d.ms ∧ d.ms < 1000

instance (d : JSDate) : Decidable d.Valid := by
  unfold JSDate.Valid
  exact inferInstance

/-- Milliseconds of the day described by the time fields. -/
def JSDate.timeOfDay (d : JSDate) : Int :=
  d.hour * 3600000 + d.minute * 60000 + d.second * 1000 + d.ms

/-- Day number (days since 1970-01-01) of the date's calendar day. -/
def JSDate.dayNumber (d : JSDate) : Int :=
  monthStartL (12 * d.year + d.month) + (d.day - 1)

/-- `Date.prototype.valueOf`: milliseconds since 1970-01-01T00:00:00. -/
def JSDate.valueOf (d : JSDate) : Int :=
  d.dayNumber * 86400000 + d.timeOfDay

/-- Normalize an out-of-range day of month by carrying into months and
years, one month at a time (`y` any year, `m` assumed in `[0, 12)`,
`d` any integer): the calendar normalization that `new Date(y, m, d)`
performs on the day field. -/
def normDays (y m d : Int) : Int × Int × Int :=
  if d < 1 then
    if m ≤ 0 then normDays (y - 1) 11 (d + 31)
    else normDays y (m - 1) (d + daysInMonth y (m - 1))
  else if daysInMonth y m < d then
    if 11 ≤ m then normDays (y + 1) 0 (d - daysInMonth y m)
    else normDays y (m + 1) (d - daysInMonth y m)
  else (y, m, d)
termination_by (if d < 1 then 33 - d else d).toNat
decreasing_by
· split_ifs <;> omega
· have hb := daysInMonth_bounds y (m - 1)
  split_ifs <;> omega
· have hb := daysInMonth_bounds y m
  split_ifs <;> omega
· have hb := daysInMonth_bounds y m
  split_ifs <;> omega

theorem normDays_spec (y m d : Int) : 0 ≤ m → m < 12 →
    (0 ≤ (normDays y m d).2.1 ∧ (normDays y m d).2.1 < 12 ∧
     1 ≤ (normDays y m d).2.2 ∧
     (normDays y m d).2.2 ≤ daysInMonth (normDays y m d).1 (normDays y m d).2.1) ∧
    monthStartL (12 * (normDays y m d).1 + (normDays y m d).2.1) + ((normDays y m d).2.2 - 1)
      = monthStartL (12 * y + m) + (d - 1) := by
  induction y, m, d using normDays.induct with
  | case1 y m d h1 h2 ih =>
      intro hm0 hm1
      rw [normDays, if_pos h1, if_pos h2]
      refine ⟨(ih (by omega) (by omega)).1, ?_⟩
      rw [(ih (by omega) (by omega)).2]
      have hm : m = 0 := by omega
      subst hm
      have hs := monthStartL_succ (12 * (y - 1) + 11)
      have hd : daysInMonthL (12 * (y - 1) + 11) = daysInMonth (y - 1) 11 := by
        unfold daysInMonthL
        have e1 : (12 * (y - 1) + 11) / 12 = y - 1 := by omega
        have e2 : (12 * (y - 1) + 11) % 12 = 11 := by omega
        rw [e1, e2]
      have h31 : daysInMonth (y - 1) 11 = 31 := by norm_num [daysInMonth]
      have he : 12 * (y - 1) + 11 + 1 = 12 * y + 0 := by ring
      rw [hd, h31, he] at hs
      omega
  | case2 y m d h1 h2 ih =>
      intro hm0 hm1
      rw [normDays, if_pos h1, if_neg h2]
      refine ⟨(ih (by omega) (by omega)).1, ?_⟩
      rw [(ih (by omega) (by omega)).2]
      have hs := monthStartL_succ (12 * y + (m - 1))
      have hd : daysInMonthL (12 * y + (m - 1)) = daysInMonth y (m - 1) := by
        unfold daysInMonthL
        have e1 : (12 * y + (m - 1)) / 12 = y := by omega
        have e2 : (12 * y + (m - 1)) % 12 = m - 1 := by omega
        rw [e1, e2]
      have he : 12 * y + (m - 1) + 1 = 12 * y + m := by ring
      rw [hd, he] at hs
      omega
  | case3 y m d h1 h2 h3 ih =>
      intro hm0 hm1
      rw [normDays, if_neg h1, if_pos h2, if_pos h3]
      refine ⟨(ih (by omega) (by omega)).1, ?_⟩
      rw [(ih (by omega) (by omega)).2]
      have hm : m = 11 := by omega
      subst hm
      have hs := monthStartL_succ (12 * y + 11)
      have hd : daysInMonthL (12 * y + 11) = daysInMonth y 11 := by
        unfold daysInMonthL
        have e1 : (12 * y + 11) / 12 = y := by omega
        have e2 : (12 * y + 11) % 12 = 11 := by omega
        rw [e1, e2]
      have he : 12 * y + 11 + 1 = 12 * (y + 1) + 0 := by ring
      rw [hd, he] at hs
      omega
  | case4 y m d h1 h2 h3 ih =>
      intro hm0 hm1
      rw [normDays, if_neg h1, if_pos h2, if_neg h3]
      refine ⟨(ih (by omega) (by omega)).1, ?_⟩
      rw [(ih (by omega) (by omega)).2]
      have hs := monthStartL_succ (12 * y + m)
      have hd : daysInMonthL (12 * y + m) = daysInMonth y m := by
        unfold daysInMonthL
        have e1 : (12 * y + m) / 12 = y := by omega
        have e2 : (12 * y + m) % 12 = m := by omega
        rw [e1, e2]
      have he : 12 * y + m + 1 = 12 * y + (m + 1) := by ring
      rw [hd, he] at hs
      omega
  | case5 y m d h1 h2 =>
      intro hm0 hm1
      rw [normDays, if_neg h1, if_neg h2]
      exact ⟨⟨hm0, hm1, show (1:Int) ≤ d by omega, show d ≤ daysInMonth y m by omega⟩, rfl⟩

theorem normDays_base (y m d : Int) (h1 : 1 ≤ d) (h2 : d ≤ daysInMonth y m) :
    normDays y m d = (y, m, d) := by
  rw [normDays, if_neg (by omega), if_neg (by omega)]


/-- `new Date(y, mo, d, h, mi, s, ms)`: normalize arbitrary integer
fields to a valid calendar date, ECMAScript style (the month carries by
floor-division into the year, the time of day carries into days, the
day of month carries month by month). -/
def normDate (y mo d h mi s ms : Int) : JSDate :=
  ⟨(normDays (y + mo / 12) (mo % 12) (d + (h * 3600000 + mi * 60000 + s * 1000 + ms) / 86400000)).1,
   (normDays (y + mo / 12) (mo % 12) (d + (h * 3600000 + mi * 60000 + s * 1000 + ms) / 86400000)).2.1,
   (normDays (y + mo / 12) (mo % 12) (d + (h * 3600000 + mi * 60000 + s * 1000 + ms) / 86400000)).2.2,
   (h * 3600000 + mi * 60000 + s * 1000 + ms) % 86400000 / 3600000,
   (h * 3600000 + mi * 60000 + s * 1000 + ms) % 86400000 % 3600000 / 60000,
   (h * 3600000 + mi * 60000 + s * 1000 + ms) % 86400000 % 60000 / 1000,
   (h * 3600000 + mi * 60000 + s * 1000 + ms) % 86400000 % 1000⟩

theorem normDate_valid (y mo d h mi s ms : Int) : (normDate y mo d h mi s ms).Valid := by
  have hs := normDays_spec (y + mo / 12) (mo % 12)
    (d + (h * 3600000 + mi * 60000 + s * 1000 + ms) / 86400000) (by omega) (by omega)
  simp only [normDate, JSDate.Valid]
  refine ⟨hs.1.1, hs.1.2.1, hs.1.2.2.1, hs.1.2.2.2, ?_, ?_, ?_, ?_, ?_, ?_, ?_, ?_⟩ <;> omega

theorem normDate_valueOf (y mo d h mi s ms : Int) :
    (normDate y mo d h mi s ms).valueOf =
      (monthStartL (12 * y + mo) + (d - 1)) * 86400000
        + h * 3600000 + mi * 60000 + s * 1000 + ms := by
  have hs := normDays_spec (y + mo / 12) (mo % 12)
    (d + (h * 3600000 + mi * 60000 + s * 1000 + ms) / 86400000) (by omega) (by omega)
  have hL : 12 * (y + mo / 12) + mo % 12 = 12 * y + mo := by omega
  rw [hL] at hs
  simp only [normDate, JSDate.valueOf, JSDate.dayNumber, JSDate.timeOfDay]
  omega

theorem normDate_base (y mo d h mi s ms : Int)
    (hmo : 0 ≤ mo ∧ mo < 12) (hd : 1 ≤ d ∧ d ≤ daysInMonth y mo)
    (hh : 0 ≤ h ∧ h < 24) (hmi : 0 ≤ mi ∧ mi < 60) (hms2 : 0 ≤ s ∧ s < 60)
    (hms : 0 ≤ ms ∧ ms < 1000) :
    normDate y mo d h mi s ms = ⟨y, mo, d, h, mi, s, ms⟩ := by
  have e1 : mo / 12 = 0 := by omega
  have e2 : mo % 12 = mo := by omega
  have e3 : (h * 3600000 + mi * 60000 + s * 1000 + ms) / 86400000 = 0 := by omega
  have e4 : (h * 3600000 + mi * 60000 + s * 1000 + ms) % 86400000
      = h * 3600000 + mi * 60000 + s * 1000 + ms := by omega
  simp only [normDate, e1, e2, e3, e4, add_zero]
  rw [normDays_base y mo d hd.1 hd.2]
  have t1 : (h * 3600000 + mi * 60000 + s * 1000 + ms) / 3600000 = h := by omega
  have t2 : (h * 3600000 + mi * 60000 + s * 1000 + ms) % 3600000 / 60000 = mi := by omega
  have t3 : (h * 3600000 + mi * 60000 + s * 1000 + ms) % 60000 / 1000 = s := by omega
  have t4 : (h * 3600000 + mi * 60000 + s * 1000 + ms) % 1000 = ms := by omega
  rw [t1, t2, t3, t4]

theorem valid_valueOf_inj {d1 d2 : JSDate} (h1 : d1.Valid) (h2 : d2.Valid)
    (h : d1.valueOf = d2.valueOf) : d1 = d2 := by
  obtain ⟨a1, a2, a3, a4, a5, a6, a7, a8, a9, a10, a11, a12⟩ := h1
  obtain ⟨b1, b2, b3, b4, b5, b6, b7, b8, b9, b10, b11, b12⟩ := h2
  unfold JSDate.valueOf JSDate.dayNumber JSDate.timeOfDay at h
  have ht1 : 0 ≤ d1.timeOfDay ∧ d1.timeOfDay < 86400000 := by
    unfold JSDate.timeOfDay; omega
  have ht2 : 0 ≤ d2.timeOfDay ∧ d2.timeOfDay < 86400000 := by
    unfold JSDate.timeOfDay; omega
  unfold JSDate.timeOfDay at ht1 ht2
  have hdim1 : daysInMonthL (12 * d1.year + d1.month) = daysInMonth d1.year d1.month := by
    unfold daysInMonthL
    have e1 : (12 * d1.year + d1.month) / 12 = d1.year := by omega
    have e2 : (12 * d1.year + d1.month) % 12 = d1.month := by omega
    rw [e1, e2]
  have hdim2 : daysInMonthL (12 * d2.year + d2.month) = daysInMonth d2.year d2.month := by
    unfold daysInMonthL
    have e1 : (12 * d2.year + d2.month) / 12 = d2.year := by omega
    have e2 : (12 * d2.year + d2.month) % 12 = d2.month := by omega
    rw [e1, e2]
  have hdayEq : monthStartL (12 * d1.year + d1.month) + (d1.day - 1)
      = monthStartL (12 * d2.year + d2.month) + (d2.day - 1) ∧
      d1.hour * 3600000 + d1.minute * 60000 + d1.second * 1000 + d1.ms
      = d2.hour * 3600000 + d2.minute * 60000 + d2.second * 1000 + d2.ms := by
    constructor <;> omega
  have hLeq : 12 * d1.year + d1.month = 12 * d2.year + d2.month := by
    by_contra hne
    rcases lt_or_gt_of_ne hne with hlt | hgt
    · have := monthStartL_next_le hlt
      rw [hdim1] at this
      omega
    · have := monthStartL_next_le hgt
      rw [hdim2] at this
      omega
  have hyear : d1.year = d2.year ∧ d1.month = d2.month := by omega
  have hday : d1.day = d2.day := by
    have := hdayEq.1
    rw [hLeq] at this
    omega
  have htime : d1.hour = d2.hour ∧ d1.minute = d2.minute ∧ d1.second = d2.second ∧
      d1.ms = d2.ms := by omega
  cases d1
  cases d2
  simp_all

/-- The `EDateTimeLevel` enumeration of the source (second=0 .. year=5). -/
inductive EDateTimeLevel where
  | eSecond
  | eMinute
  | eHour
  | eDay
  | eMonth
  | eYear
deriving DecidableEq

/-- The integer code of a level, as used by the source's `<`/`≤` tests. -/
def EDateTimeLevel.toInt : EDateTimeLevel → Int
  | .eSecond => 0
  | .eMinute => 1
  | .eHour => 2
  | .eDay => 3
  | .eMonth => 4
  | .eYear => 5

def kSecond : Int := 1000

def kMinute : Int := kSecond * 60

def kHour : Int := kMinute * 60

def kDay : Int := kHour * 24

def kMonth : Int := kDay * 30

def kYear : Int := kDay * 365

/-- The result type of `determineLevels`. -/
structure LevelPair where
  outerLevel : EDateTimeLevel
  innerLevel : EDateTimeLevel
deriving DecidableEq

/-- `determineLevels(iMinDate, iMaxDate)` of the source: choose the
outer and inner granularity from the span in milliseconds. -/
def determineLevels (iMinDate iMaxDate : Int) : LevelPair :=
  if iMaxDate - iMinDate < 3 * kMinute then ⟨.eDay, .eSecond⟩
  else if iMaxDate - iMinDate < 3 * kHour then ⟨.eDay, .eMinute⟩
  else if iMaxDate - iMinDate < 3 * kDay then ⟨.eDay, .eHour⟩
  else if iMaxDate - iMinDate < 3 * kMonth then ⟨.eMonth, .eDay⟩
  else if iMaxDate - iMinDate < 3 * kYear then ⟨.eYear, .eMonth⟩
  else ⟨.eYear, .eYear⟩

/-- The `kMonthNames` table of the source: localization keys by month
index; `.loc()` (the external localization collaborator) is modelled as
the identity on these keys. -/
def kMonthNames (m : Int) : String :=
  if m = 0 then "DG.Formula.DateShortMonthJanuary"
  else if m = 1 then "DG.Formula.DateShortMonthFebruary"
  else if m = 2 then "DG.Formula.DateShortMonthMarch"
  else if m = 3 then "DG.Formula.DateShortMonthApril"
  else if m = 4 then "DG.Formula.DateShortMonthMay"
  else if m = 5 then "DG.Formula.DateShortMonthJune"
  else if m = 6 then "DG.Formula.DateShortMonthJuly"
  else if m = 7 then "DG.Formula.DateShortMonthAugust"
  else if m = 8 then "DG.Formula.DateShortMonthSeptember"
  else if m = 9 then "DG.Formula.DateShortMonthOctober"
  else if m = 10 then "DG.Formula.DateShortMonthNovember"
  else if m = 11 then "DG.Formula.DateShortMonthDecember"
  else ""

/-- Modelled from the spec: `Date.prototype.toLocaleDateString`, the
host's locale date formatting (an external collaborator the source
calls for day-and-finer labels); rendered here as `month/day/year`.
No claim depends on its exact text. -/
def toLocaleDateString (d : JSDate) : String :=
  toString (d.month + 1) ++ "/" ++ toString d.day ++ "/" ++ toString d.year

/-- Two-digit zero padding, as in `tMinute < 10 ? '0' + tMinute : String(tMinute)`. -/
def pad2 (n : Int) : String :=
  if n < 10 then "0" ++ toString n else toString n

/-- The `{labelString, labelDate}` pairs the source returns. -/
structure DateLabel where
  labelString : String
  labelDate : JSDate
deriving DecidableEq

/-- `new Date(y, mo, d)`. -/
def mkDate3 (y mo d : Int) : JSDate := normDate y mo d 0 0 0 0

/-- `new Date(y, mo, d, h)`. -/
def mkDate4 (y mo d h : Int) : JSDate := normDate y mo d h 0 0 0

/-- `new Date(y, mo, d, h, mi)`. -/
def mkDate5 (y mo d h mi : Int) : JSDate := normDate y mo d h mi 0 0

/-- `new Date(y, mo, d, h, mi, s)`. -/
def mkDate6 (y mo d h mi s : Int) : JSDate := normDate y mo d h mi s 0

/-- `getLevelLabelForValue(iLevel, iDate)` of the source: the label
string fully describing `iDate` at `iLevel`, and the date that string
corresponds to.  (The `DG.isDate` conversion branch is omitted: the
embedding passes dates as field records directly.) -/
def getLevelLabelForValue (iLevel : EDateTimeLevel) (iDate : JSDate) : DateLabel :=
  if iLevel = .eYear then
    ⟨toString iDate.year, mkDate3 iDate.year 1 1⟩
  else if iLevel = .eMonth then
    ⟨kMonthNames iDate.month ++ ", " ++ toString iDate.year, mkDate3 iDate.year iDate.month 1⟩
  else
    ⟨toLocaleDateString (normDate iDate.year iDate.month iDate.day
        (if iLevel.toInt < 3 then iDate.hour else 0)
        (if iLevel.toInt < 2 then iDate.minute else 0)
        (if iLevel.toInt < 1 then iDate.second else 0) 0),
     normDate iDate.year iDate.month iDate.day
        (if iLevel.toInt < 3 then iDate.hour else 0)
        (if iLevel.toInt < 2 then iDate.minute else 0)
        (if iLevel.toInt < 1 then iDate.second else 0) 0⟩

/-- `getNextLevelLabelForValue(iLevel, iDate)` of the source: bump the
field of `iLevel` by one (with the source's `>`-based carries), build
the date (time fields are kept only when `iLevel ≤ eHour`), and label
it via `getLevelLabelForValue`. -/
def getNextLevelLabelForValue (iLevel : EDateTimeLevel) (iDate : JSDate) : DateLabel :=
  getLevelLabelForValue iLevel
    (match iLevel with
     | .eYear => mkDate3 (iDate.year + 1) iDate.month iDate.day
     | .eMonth =>
         if iDate.month + 1 > 12 then mkDate3 (iDate.year + 1) 1 iDate.day
         else mkDate3 iDate.year (iDate.month + 1) iDate.day
     | .eDay => mkDate3 iDate.year iDate.month (iDate.day + 1)
     | .eHour =>
         if iDate.hour + 1 > 24 then
           mkDate6 iDate.year iDate.month (iDate.day + 1) 0 iDate.minute iDate.second
         else
           mkDate6 iDate.year iDate.month iDate.day (iDate.hour + 1) iDate.minute iDate.second
     | .eMinute =>
         if iDate.minute + 1 > 60 then
           mkDate6 iDate.year iDate.month iDate.day (iDate.hour + 1) 0 iDate.second
         else
           mkDate6 iDate.year iDate.month iDate.day iDate.hour (iDate.minute + 1) iDate.second
     | .eSecond =>
         if iDate.second + 1 > 60 then
           mkDate6 iDate.year iDate.month iDate.day iDate.hour (iDate.minute + 1) 0
         else
           mkDate6 iDate.year iDate.month iDate.day iDate.hour iDate.minute (iDate.second + 1))

/-- `findFirstDateAboveOrAtLevel(iLevel, iDate)` of the source: a date
that is an exact value for the level at or above `iDate` (as the
source computes it, including the self-assignment in the `eSecond`
branch and the `new Date(year, 1, 1)` in the `eYear` branch). -/
def findFirstDateAboveOrAtLevel (iLevel : EDateTimeLevel) (iDate : JSDate) : DateLabel :=
  match iLevel with
  | .eYear =>
      if (mkDate3 iDate.year 1 1).valueOf < iDate.valueOf then
        ⟨toString (iDate.year + 1), mkDate3 (iDate.year + 1) 1 1⟩
      else ⟨toString iDate.year, mkDate3 iDate.year 1 1⟩
  | .eMonth =>
      if (mkDate3 iDate.year iDate.month 1).valueOf < iDate.valueOf then
        if iDate.month + 1 > 12 then
          ⟨kMonthNames (mkDate3 (iDate.year + 1) 1 1).month, mkDate3 (iDate.year + 1) 1 1⟩
        else
          ⟨kMonthNames (mkDate3 iDate.year (iDate.month + 1) 1).month,
           mkDate3 iDate.year (iDate.month + 1) 1⟩
      else
        ⟨kMonthNames (mkDate3 iDate.year iDate.month 1).month, mkDate3 iDate.year iDate.month 1⟩
  | .eDay =>
      if (mkDate3 iDate.year iDate.month iDate.day).valueOf < iDate.valueOf then
        ⟨toString (mkDate3 iDate.year iDate.month (iDate.day + 1)).day,
         mkDate3 iDate.year iDate.month (iDate.day + 1)⟩
      else
        ⟨toString (mkDate3 iDate.year iDate.month iDate.day).day,
         mkDate3 iDate.year iDate.month iDate.day⟩
  | .eHour =>
      if (mkDate4 iDate.year iDate.month iDate.day iDate.hour).valueOf < iDate.valueOf then
        ⟨toString (mkDate4 iDate.year iDate.month iDate.day (iDate.hour + 1)).hour ++ ":00",
         mkDate4 iDate.year iDate.month iDate.day (iDate.hour + 1)⟩
      else
        ⟨toString (mkDate4 iDate.year iDate.month iDate.day iDate.hour).hour ++ ":00",
         mkDate4 iDate.year iDate.month iDate.day iDate.hour⟩
  | .eMinute =>
      if (mkDate5 iDate.year iDate.month iDate.day iDate.hour iDate.minute).valueOf
          < iDate.valueOf then
        ⟨toString (mkDate5 iDate.year iDate.month iDate.day iDate.hour (iDate.minute + 1)).minute,
         mkDate5 iDate.year iDate.month iDate.day iDate.hour (iDate.minute + 1)⟩
      else
        ⟨toString (mkDate5 iDate.year iDate.month iDate.day iDate.hour iDate.minute).minute,
         mkDate5 iDate.year iDate.month iDate.day iDate.hour iDate.minute⟩
  | .eSecond =>
      if (mkDate6 iDate.year iDate.month iDate.day iDate.hour iDate.minute
            iDate.second).valueOf < iDate.valueOf then
        ⟨toString (mkDate6 iDate.year iDate.month iDate.day iDate.hour iDate.minute
            iDate.second).second,
         mkDate6 iDate.year iDate.month iDate.day iDate.hour iDate.minute iDate.second⟩
      else
        ⟨toString (mkDate6 iDate.year iDate.month iDate.day iDate.hour iDate.minute
            iDate.second).second,
         mkDate6 iDate.year iDate.month iDate.day iDate.hour iDate.minute iDate.second⟩

/-- The `while (tMonth > 12) { tYear++; tMonth -= 12; }` carry of the
source's `eMonth` increment case. -/
def monthCarry (y m : Int) : Int × Int :=
  if m > 12 then monthCarry (y + 1) (m - 12) else (y, m)
termination_by m.toNat
decreasing_by omega

/-- The `while (tHour > 24) { tDayOfMonth++; tHour -= 24; }` carry of
the source's `eHour` increment case. -/
def hourCarry (d h : Int) : Int × Int :=
  if h > 24 then hourCarry (d + 1) (h - 24) else (d, h)
termination_by h.toNat
decreasing_by omega

/-- `getLabelForIncrementedDateAtLevel(iLevel, iDate, iIncrementBy)` of
the source: a date greater than `iDate` by `iIncrementBy` units of
`iLevel`, with the short tick-label format of each level (minute and
second labels reuse the original hour and minute fields). -/
def getLabelForIncrementedDateAtLevel (iLevel : EDateTimeLevel) (iDate : JSDate)
    (iIncrementBy : Int) : DateLabel :=
  match iLevel with
  | .eYear =>
      ⟨toString (iDate.year + iIncrementBy), mkDate3 (iDate.year + iIncrementBy) 1 1⟩
  | .eMonth =>
      ⟨kMonthNames (mkDate3 (monthCarry iDate.year (iDate.month + iIncrementBy)).1
          (monthCarry iDate.year (iDate.month + iIncrementBy)).2 1).month,
       mkDate3 (monthCarry iDate.year (iDate.month + iIncrementBy)).1
          (monthCarry iDate.year (iDate.month + iIncrementBy)).2 1⟩
  | .eDay =>
      ⟨toString (mkDate3 iDate.year iDate.month (iDate.day + iIncrementBy)).day,
       mkDate3 iDate.year iDate.month (iDate.day + iIncrementBy)⟩
  | .eHour =>
      ⟨toString (mkDate4 iDate.year iDate.month
          (hourCarry iDate.day (iDate.hour + iIncrementBy)).1
          (hourCarry iDate.day (iDate.hour + iIncrementBy)).2).hour ++ ":00",
       mkDate4 iDate.year iDate.month
          (hourCarry iDate.day (iDate.hour + iIncrementBy)).1
          (hourCarry iDate.day (iDate.hour + iIncrementBy)).2⟩
  | .eMinute =>
      ⟨toString iDate.hour ++ ":" ++
          pad2 (mkDate5 iDate.year iDate.month iDate.day iDate.hour
            (iDate.minute + iIncrementBy)).minute,
       mkDate5 iDate.year iDate.month iDate.day iDate.hour (iDate.minute + iIncrementBy)⟩
  | .eSecond =>
      ⟨toString iDate.hour ++ ":" ++ pad2 iDate.minute ++ ":" ++
          pad2 (mkDate6 iDate.year iDate.month iDate.day iDate.hour iDate.minute
            (iDate.second + iIncrementBy)).second,
       mkDate6 iDate.year iDate.month iDate.day iDate.hour iDate.minute
          (iDate.second + iIncrementBy)⟩

/-- `new Date(ms)`: the date of a raw millisecond timestamp. -/
def msToDate (ms : Int) : JSDate := normDate 1970 0 1 0 0 0 ms

theorem monthCarry_sum (y m : Int) :
    12 * (monthCarry y m).1 + (monthCarry y m).2 = 12 * y + m := by
  induction y, m using monthCarry.induct with
  | case1 y m h ih => rw [monthCarry, if_pos h]; omega
  | case2 y m h => rw [monthCarry, if_neg h]

theorem hourCarry_sum (d h : Int) :
    24 * (hourCarry d h).1 + (hourCarry d h).2 = 24 * d + h := by
  induction d, h using hourCarry.induct with
  | case1 d h hc ih => rw [hourCarry, if_pos hc]; omega
  | case2 d h hc => rw [hourCarry, if_neg hc]

theorem monthCarry_of_le (y m : Int) (h : m ≤ 12) : monthCarry y m = (y, m) := by
  rw [monthCarry, if_neg (by omega)]

theorem hourCarry_of_le (d h : Int) (hh : h ≤ 24) : hourCarry d h = (d, h) := by
  rw [hourCarry, if_neg (by omega)]

theorem incr_valid (iLevel : EDateTimeLevel) (d : JSDate) (n : Int) :
    ((getLabelForIncrementedDateAtLevel iLevel d n).labelDate).Valid := by
  cases iLevel <;>
    simp only [getLabelForIncrementedDateAtLevel, mkDate3, mkDate4, mkDate5, mkDate6] <;>
    exact normDate_valid _ _ _ _ _ _ _

theorem valueOf_mk (y mo dd h mi s ms : Int) :
    JSDate.valueOf ⟨y, mo, dd, h, mi, s, ms⟩ =
      (monthStartL (12 * y + mo) + (dd - 1)) * 86400000
        + h * 3600000 + mi * 60000 + s * 1000 + ms := by
  simp only [JSDate.valueOf, JSDate.dayNumber, JSDate.timeOfDay]
  ring

theorem valid_dim (d : JSDate) (h : d.Valid) :
    d.day ≤ daysInMonthL (12 * d.year + d.month) := by
  have e1 : (12 * d.year + d.month) / 12 = d.year := by
    obtain ⟨a1, a2, -⟩ := h
    omega
  have e2 : (12 * d.year + d.month) % 12 = d.month := by
    obtain ⟨a1, a2, -⟩ := h
    omega
  unfold daysInMonthL
  rw [e1, e2]
  exact h.2.2.2.1

theorem incr_year_date (d : JSDate) (n : Int) :
    (getLabelForIncrementedDateAtLevel .eYear d n).labelDate =
      ⟨d.year + n, 1, 1, 0, 0, 0, 0⟩ := by
  have hb := daysInMonth_bounds (d.year + n) 1
  simp only [getLabelForIncrementedDateAtLevel, mkDate3]
  exact normDate_base _ _ _ _ _ _ _ (by omega) (by omega) (by omega) (by omega)
    (by omega) (by omega)

theorem mkDate3_first (y m : Int) :
    mkDate3 y m 1 = ⟨y + m / 12, m % 12, 1, 0, 0, 0, 0⟩ := by
  have hb := daysInMonth_bounds (y + m / 12) (m % 12)
  simp only [mkDate3, normDate]
  norm_num
  rw [normDays_base _ _ _ (by norm_num) (by omega)]
  exact ⟨rfl, rfl, rfl⟩

theorem incr_month_date (d : JSDate) (n : Int) :
    (getLabelForIncrementedDateAtLevel .eMonth d n).labelDate =
      ⟨(12 * d.year + d.month + n) / 12, (12 * d.year + d.month + n) % 12, 1, 0, 0, 0, 0⟩ := by
  have hc := monthCarry_sum d.year (d.month + n)
  simp only [getLabelForIncrementedDateAtLevel, mkDate3_first]
  have e1 : (monthCarry d.year (d.month + n)).1 + (monthCarry d.year (d.month + n)).2 / 12
      = (12 * d.year + d.month + n) / 12 := by omega
  have e2 : (monthCarry d.year (d.month + n)).2 % 12 = (12 * d.year + d.month + n) % 12 := by
    omega
  rw [e1, e2]

theorem incr_day_date (d : JSDate) (n : Int) :
    (getLabelForIncrementedDateAtLevel .eDay d n).labelDate =
      mkDate3 d.year d.month (d.day + n) := rfl

theorem incr_day_valueOf (d : JSDate) (n : Int) :
    (getLabelForIncrementedDateAtLevel .eDay d n).labelDate.valueOf =
      (monthStartL (12 * d.year + d.month) + (d.day + n - 1)) * 86400000 := by
  rw [incr_day_date]
  unfold mkDate3
  rw [normDate_valueOf]
  ring

theorem incr_hour_valueOf (d : JSDate) (n : Int) :
    (getLabelForIncrementedDateAtLevel .eHour d n).labelDate.valueOf =
      (monthStartL (12 * d.year + d.month) + (d.day - 1)) * 86400000
        + (d.hour + n) * 3600000 := by
  have hc := hourCarry_sum d.day (d.hour + n)
  simp only [getLabelForIncrementedDateAtLevel, mkDate4]
  rw [normDate_valueOf]
  have : (monthStartL (12 * d.year + d.month) + ((hourCarry d.day (d.hour + n)).1 - 1)) * 86400000
        + (hourCarry d.day (d.hour + n)).2 * 3600000 + 0 * 60000 + 0 * 1000 + 0
      = (monthStartL (12 * d.year + d.month) - 1) * 86400000
        + (24 * (hourCarry d.day (d.hour + n)).1 + (hourCarry d.day (d.hour + n)).2) * 3600000 := by
    ring
  rw [this, hc]
  ring

theorem incr_minute_valueOf (d : JSDate) (n : Int) :
    (getLabelForIncrementedDateAtLevel .eMinute d n).labelDate.valueOf =
      (monthStartL (12 * d.year + d.month) + (d.day - 1)) * 86400000
        + d.hour * 3600000 + (d.minute + n) * 60000 := by
  simp only [getLabelForIncrementedDateAtLevel, mkDate5]
  rw [normDate_valueOf]
  ring

theorem incr_second_valueOf (d : JSDate) (n : Int) :
    (getLabelForIncrementedDateAtLevel .eSecond d n).labelDate.valueOf =
      (monthStartL (12 * d.year + d.month) + (d.day - 1)) * 86400000
        + d.hour * 3600000 + d.minute * 60000 + (d.second + n) * 1000 := by
  simp only [getLabelForIncrementedDateAtLevel, mkDate6]
  rw [normDate_valueOf]
  ring

theorem valueOf_lt_next (d : JSDate) (h : d.Valid) :
    d.valueOf < monthStartL (12 * d.year + d.month + 1) * 86400000 := by
  obtain ⟨a1, a2, a3, a4, a5, a6, a7, a8, a9, a10, a11, a12⟩ := h
  have hd := valid_dim d ⟨a1, a2, a3, a4, a5, a6, a7, a8, a9, a10, a11, a12⟩
  have hs := monthStartL_succ (12 * d.year + d.month)
  unfold JSDate.valueOf JSDate.dayNumber JSDate.timeOfDay
  omega

/-- Incrementing a valid date by `n ≥ 1` units of any level advances
its timestamp by at least `n` milliseconds. -/
theorem incr_lower (iLevel : EDateTimeLevel) (d : JSDate) (h : d.Valid) (n : Int)
    (hn : 1 ≤ n) :
    d.valueOf + n ≤ (getLabelForIncrementedDateAtLevel iLevel d n).labelDate.valueOf := by
  have hnext := valueOf_lt_next d h
  obtain ⟨a1, a2, a3, a4, a5, a6, a7, a8, a9, a10, a11, a12⟩ := h
  have hvd : d.valueOf = (monthStartL (12 * d.year + d.month) + (d.day - 1)) * 86400000
      + d.hour * 3600000 + d.minute * 60000 + d.second * 1000 + d.ms := by
    unfold JSDate.valueOf JSDate.dayNumber JSDate.timeOfDay
    ring
  cases iLevel with
  | eSecond => rw [incr_second_valueOf]; omega
  | eMinute => rw [incr_minute_valueOf]; omega
  | eHour => rw [incr_hour_valueOf]; omega
  | eDay => rw [incr_day_valueOf]; omega
  | eMonth =>
      rw [incr_month_date]
      have e : 12 * ((12 * d.year + d.month + n) / 12) + (12 * d.year + d.month + n) % 12
          = 12 * d.year + d.month + n := by omega
      rw [show (JSDate.mk ((12 * d.year + d.month + n) / 12) ((12 * d.year + d.month + n) % 12)
            1 0 0 0 0).valueOf = monthStartL (12 * d.year + d.month + n) * 86400000 by
        rw [valueOf_mk, e]; ring]
      have ha := monthStartL_add (12 * d.year + d.month + 1) (n - 1).toNat
      have e2 : (12 * d.year + d.month + 1 : Int) + (n - 1).toNat
          = 12 * d.year + d.month + n := by omega
      rw [e2] at ha
      have e3 : (28 : Int) * (n - 1).toNat = 28 * (n - 1) := by omega
      rw [e3] at ha
      omega
  | eYear =>
      rw [incr_year_date]
      rw [show (JSDate.mk (d.year + n) 1 1 0 0 0 0).valueOf
            = monthStartL (12 * (d.year + n) + 1) * 86400000 by rw [valueOf_mk]; ring]
      have ha := monthStartL_add (12 * d.year + d.month + 1) (12 * n - d.month).toNat
      have e2 : (12 * d.year + d.month + 1 : Int) + (12 * n - d.month).toNat
          = 12 * (d.year + n) + 1 := by omega
      rw [e2] at ha
      have e3 : (28 : Int) * (12 * n - d.month).toNat = 28 * (12 * n - d.month) := by omega
      rw [e3] at ha
      omega

theorem valueOf_fields (d : JSDate) :
    d.valueOf = (monthStartL (12 * d.year + d.month) + (d.day - 1)) * 86400000
      + d.hour * 3600000 + d.minute * 60000 + d.second * 1000 + d.ms := by
  unfold JSDate.valueOf JSDate.dayNumber JSDate.timeOfDay
  ring

theorem normDate_dayNumber (y mo d h mi s ms : Int) :
    monthStartL (12 * (normDate y mo d h mi s ms).year + (normDate y mo d h mi s ms).month)
        + ((normDate y mo d h mi s ms).day - 1)
      = monthStartL (12 * y + mo) + (d - 1)
          + (h * 3600000 + mi * 60000 + s * 1000 + ms) / 86400000 := by
  have hs := normDays_spec (y + mo / 12) (mo % 12)
    (d + (h * 3600000 + mi * 60000 + s * 1000 + ms) / 86400000) (by omega) (by omega)
  have hL : 12 * (y + mo / 12) + mo % 12 = 12 * y + mo := by omega
  rw [hL] at hs
  simp only [normDate]
  omega

theorem mkDate4_sub (y mo dd h : Int) :
    (mkDate4 y mo dd h).minute = 0 ∧ (mkDate4 y mo dd h).second = 0 ∧
    (mkDate4 y mo dd h).ms = 0 := by
  simp only [mkDate4, normDate]
  omega

theorem mkDate5_sub (y mo dd h mi : Int) :
    (mkDate5 y mo dd h mi).second = 0 ∧ (mkDate5 y mo dd h mi).ms = 0 := by
  simp only [mkDate5, normDate]
  omega

theorem mkDate6_sub (y mo dd h mi s : Int) : (mkDate6 y mo dd h mi s).ms = 0 := by
  simp only [mkDate6, normDate]
  omega

/-- Sub-granularity fields at their minimum (the spec's notion of an
aligned instant for each level). -/
def Aligned : EDateTimeLevel → JSDate → Prop
  | .eSecond, d => d.ms = 0
  | .eMinute, d => d.second = 0 ∧ d.ms = 0
  | .eHour, d => d.minute = 0 ∧ d.second = 0 ∧ d.ms = 0
  | .eDay, d => d.hour = 0 ∧ d.minute = 0 ∧ d.second = 0 ∧ d.ms = 0
  | .eMonth, d => d.day = 1 ∧ d.hour = 0 ∧ d.minute = 0 ∧ d.second = 0 ∧ d.ms = 0
  | .eYear, d => d.month = 0 ∧ d.day = 1 ∧ d.hour = 0 ∧ d.minute = 0 ∧ d.second = 0 ∧ d.ms = 0

instance (l : EDateTimeLevel) (d : JSDate) : Decidable (Aligned l d) := by
  cases l <;> (unfold Aligned; exact inferInstance)

/-- C7: for every granularity level, every aligned instant `x`, and all
non-negative integers `a` and `b`, incrementing an aligned instant by
`a` units and then by `b` units yields the same instant as a single
increment by `a + b` units (additive composition of
`getLabelForIncrementedDateAtLevel`). -/
theorem c7_incr_additive (iLevel : EDateTimeLevel) (x : JSDate) (hx : x.Valid)
    (hal : Aligned iLevel x) (a b : Int) (ha : 0 ≤ a) (hb : 0 ≤ b) :
    (getLabelForIncrementedDateAtLevel iLevel
        ((getLabelForIncrementedDateAtLevel iLevel x a).labelDate) b).labelDate =
      (getLabelForIncrementedDateAtLevel iLevel x (a + b)).labelDate := by
  cases iLevel with
  | eYear =>
      simp only [incr_year_date, JSDate.mk.injEq, and_true, true_and]
      omega
  | eMonth =>
      simp only [incr_month_date, JSDate.mk.injEq, and_true, true_and]
      refine ⟨by omega, by omega⟩
  | eDay =>
      apply valid_valueOf_inj (incr_valid _ _ _) (incr_valid _ _ _)
      simp only [incr_day_valueOf]
      have hdn := normDate_dayNumber x.year x.month (x.day + a) 0 0 0 0
      simp only [incr_day_date, mkDate3]
      omega
  | eHour =>
      apply valid_valueOf_inj (incr_valid _ _ _) (incr_valid _ _ _)
      simp only [incr_hour_valueOf]
      have hv := incr_hour_valueOf x a
      have hz : ((getLabelForIncrementedDateAtLevel .eHour x a).labelDate).minute = 0 ∧
          ((getLabelForIncrementedDateAtLevel .eHour x a).labelDate).second = 0 ∧
          ((getLabelForIncrementedDateAtLevel .eHour x a).labelDate).ms = 0 := by
        simp only [getLabelForIncrementedDateAtLevel]
        exact mkDate4_sub _ _ _ _
      have hf := valueOf_fields ((getLabelForIncrementedDateAtLevel .eHour x a).labelDate)
      omega
  | eMinute =>
      apply valid_valueOf_inj (incr_valid _ _ _) (incr_valid _ _ _)
      simp only [incr_minute_valueOf]
      have hv := incr_minute_valueOf x a
      have hz : ((getLabelForIncrementedDateAtLevel .eMinute x a).labelDate).second = 0 ∧
          ((getLabelForIncrementedDateAtLevel .eMinute x a).labelDate).ms = 0 := by
        simp only [getLabelForIncrementedDateAtLevel]
        exact mkDate5_sub _ _ _ _ _
      have hf := valueOf_fields ((getLabelForIncrementedDateAtLevel .eMinute x a).labelDate)
      omega
  | eSecond =>
      apply valid_valueOf_inj (incr_valid _ _ _) (incr_valid _ _ _)
      simp only [incr_second_valueOf]
      have hv := incr_second_valueOf x a
      have hz : ((getLabelForIncrementedDateAtLevel .eSecond x a).labelDate).ms = 0 := by
        simp only [getLabelForIncrementedDateAtLevel]
        exact mkDate6_sub _ _ _ _ _ _
      have hf := valueOf_fields ((getLabelForIncrementedDateAtLevel .eSecond x a).labelDate)
      omega

theorem c7_incr_additive_witness :
    (⟨1970, 10, 1, 0, 0, 0, 0⟩ : JSDate).Valid ∧
    Aligned .eMonth ⟨1970, 10, 1, 0, 0, 0, 0⟩ ∧ (0 : Int) ≤ 2 ∧ (0 : Int) ≤ 3 ∧
    (getLabelForIncrementedDateAtLevel .eMonth
        ((getLabelForIncrementedDateAtLevel .eMonth ⟨1970, 10, 1, 0, 0, 0, 0⟩ 2).labelDate)
        3).labelDate =
      (getLabelForIncrementedDateAtLevel .eMonth ⟨1970, 10, 1, 0, 0, 0, 0⟩ (2 + 3)).labelDate :=
  ⟨by decide, by decide, by norm_num, by norm_num,
   c7_incr_additive .eMonth ⟨1970, 10, 1, 0, 0, 0, 0⟩ (by decide) (by decide) 2 3
     (by norm_num) (by norm_num)⟩

/-- C5 (amended): for month, day, hour, minute, and second levels,
`getLabelForIncrementedDateAtLevel(level, x, 0)` on an aligned valid
instant returns an instant equal to `x`; at year level it returns
February 1 (month index 1) of `x`'s year, and there — and only there —
its label text equals `getLevelLabelForValue(level, x)`'s text. -/
theorem c5_incr_zero_amended (iLevel : EDateTimeLevel) (x : JSDate) (hx : x.Valid)
    (hal : Aligned iLevel x) :
    (iLevel ≠ .eYear → (getLabelForIncrementedDateAtLevel iLevel x 0).labelDate = x) ∧
    (iLevel = .eYear →
      (getLabelForIncrementedDateAtLevel iLevel x 0).labelDate = ⟨x.year, 1, 1, 0, 0, 0, 0⟩ ∧
      (getLabelForIncrementedDateAtLevel iLevel x 0).labelString
        = (getLevelLabelForValue iLevel x).labelString) := by
  obtain ⟨a1, a2, a3, a4, a5, a6, a7, a8, a9, a10, a11, a12⟩ := hx
  cases iLevel with
  | eYear =>
      refine ⟨fun h => absurd rfl h, fun _ => ⟨by rw [incr_year_date, add_zero], ?_⟩⟩
      simp [getLabelForIncrementedDateAtLevel, getLevelLabelForValue]
  | eMonth =>
      refine ⟨fun _ => ?_, fun h => absurd h (by decide)⟩
      obtain ⟨b1, b2, b3, b4, b5⟩ := hal
      rw [incr_month_date, add_zero]
      have e1 : (12 * x.year + x.month) / 12 = x.year := by omega
      have e2 : (12 * x.year + x.month) % 12 = x.month := by omega
      rw [e1, e2]
      cases x
      simp_all
  | eDay =>
      refine ⟨fun _ => ?_, fun h => absurd h (by decide)⟩
      obtain ⟨b1, b2, b3, b4⟩ := hal
      rw [incr_day_date, add_zero]
      rw [show mkDate3 x.year x.month x.day = ⟨x.year, x.month, x.day, 0, 0, 0, 0⟩ from
        normDate_base _ _ _ _ _ _ _ ⟨a1, a2⟩ ⟨a3, a4⟩ (by norm_num) (by norm_num)
          (by norm_num) (by norm_num)]
      cases x
      simp_all
  | eHour =>
      refine ⟨fun _ => ?_, fun h => absurd h (by decide)⟩
      obtain ⟨b1, b2, b3⟩ := hal
      simp only [getLabelForIncrementedDateAtLevel, add_zero,
        hourCarry_of_le x.day x.hour (by omega)]
      rw [show mkDate4 x.year x.month x.day x.hour = ⟨x.year, x.month, x.day, x.hour, 0, 0, 0⟩
        from normDate_base _ _ _ _ _ _ _ ⟨a1, a2⟩ ⟨a3, a4⟩ ⟨a5, by omega⟩ (by norm_num)
          (by norm_num) (by norm_num)]
      cases x
      simp_all
  | eMinute =>
      refine ⟨fun _ => ?_, fun h => absurd h (by decide)⟩
      obtain ⟨b1, b2⟩ := hal
      simp only [getLabelForIncrementedDateAtLevel, add_zero]
      rw [show mkDate5 x.year x.month x.day x.hour x.minute
            = ⟨x.year, x.month, x.day, x.hour, x.minute, 0, 0⟩
        from normDate_base _ _ _ _ _ _ _ ⟨a1, a2⟩ ⟨a3, a4⟩ ⟨a5, a6⟩ ⟨a7, a8⟩
          (by norm_num) (by norm_num)]
      cases x
      simp_all
  | eSecond =>
      refine ⟨fun _ => ?_, fun h => absurd h (by decide)⟩
      simp only [getLabelForIncrementedDateAtLevel, add_zero]
      rw [show mkDate6 x.year x.month x.day x.hour x.minute x.second
            = ⟨x.year, x.month, x.day, x.hour, x.minute, x.second, 0⟩
        from normDate_base _ _ _ _ _ _ _ ⟨a1, a2⟩ ⟨a3, a4⟩ ⟨a5, a6⟩ ⟨a7, a8⟩
          ⟨a9, a10⟩ (by norm_num)]
      unfold Aligned at hal
      cases x
      simp_all

theorem c5_incr_zero_amended_witness :
    (⟨1970, 0, 5, 0, 0, 0, 0⟩ : JSDate).Valid ∧
    Aligned .eDay ⟨1970, 0, 5, 0, 0, 0, 0⟩ ∧
    ((EDateTimeLevel.eDay ≠ .eYear →
      (getLabelForIncrementedDateAtLevel .eDay ⟨1970, 0, 5, 0, 0, 0, 0⟩ 0).labelDate
        = ⟨1970, 0, 5, 0, 0, 0, 0⟩) ∧
     (EDateTimeLevel.eDay = .eYear →
      (getLabelForIncrementedDateAtLevel .eDay ⟨1970, 0, 5, 0, 0, 0, 0⟩ 0).labelDate
          = ⟨(1970 : Int), 1, 1, 0, 0, 0, 0⟩ ∧
      (getLabelForIncrementedDateAtLevel .eDay ⟨1970, 0, 5, 0, 0, 0, 0⟩ 0).labelString
        = (getLevelLabelForValue .eDay ⟨1970, 0, 5, 0, 0, 0, 0⟩).labelString)) :=
  ⟨by decide, by decide,
   c5_incr_zero_amended .eDay ⟨1970, 0, 5, 0, 0, 0, 0⟩ (by decide) (by decide)⟩

/-- C5 (counterexample): at month level, `incrementedAligned(month, x, 0)`
keeps the instant but its label text (the bare month name) differs from
`labelAt(month, x).text` (month name, comma, year) — here at the
aligned valid instant March 1, 1970. -/
theorem c5_label_counterexample :
    (⟨1970, 2, 1, 0, 0, 0, 0⟩ : JSDate).Valid ∧
    Aligned .eMonth ⟨1970, 2, 1, 0, 0, 0, 0⟩ ∧
    (getLabelForIncrementedDateAtLevel .eMonth ⟨1970, 2, 1, 0, 0, 0, 0⟩ 0).labelString
      ≠ (getLevelLabelForValue .eMonth ⟨1970, 2, 1, 0, 0, 0, 0⟩).labelString := by
  refine ⟨by decide, by decide, ?_⟩
  have hc : monthCarry 1970 (2 + 0) = (1970, 2) := monthCarry_of_le _ _ (by norm_num)
  simp only [getLabelForIncrementedDateAtLevel, getLevelLabelForValue, hc, mkDate3_first]
  norm_num
  decide

/-- C1: `getLevelLabelForValue(eYear, t)` returns February 1 (month
index 1) of `t`'s year — `new Date(tYear, 1, 1)` — not January 1, and
`getLabelForIncrementedDateAtLevel(eYear, x, n)` likewise returns
February 1 of `year(x) + n`; evaluated at t = June 15, 1970 with n = 2. -/
theorem c1_year_label_feb1 :
    (getLevelLabelForValue .eYear ⟨1970, 5, 15, 0, 0, 0, 0⟩).labelDate
      = ⟨1970, 1, 1, 0, 0, 0, 0⟩ ∧
    (getLabelForIncrementedDateAtLevel .eYear ⟨1970, 5, 15, 0, 0, 0, 0⟩ 2).labelDate
      = ⟨1972, 1, 1, 0, 0, 0, 0⟩ ∧
    (⟨1970, 1, 1, 0, 0, 0, 0⟩ : JSDate) ≠ ⟨1970, 0, 1, 0, 0, 0, 0⟩ := by
  refine ⟨?_, ?_, by decide⟩
  · simp only [getLevelLabelForValue, if_pos rfl]
    exact normDate_base _ _ _ _ _ _ _ (by norm_num) (by norm_num [daysInMonth, isLeap])
      (by norm_num) (by norm_num) (by norm_num) (by norm_num)
  · rw [incr_year_date]
    norm_num

/-- C3: at second level, `findFirstDateAboveOrAtLevel` does not advance
an input with nonzero milliseconds — the increment branch re-assigns
the same floored date — so at 1970-01-01T00:00:10.500 it returns
00:00:10.000, which is strictly below the input. -/
theorem c3_second_not_advanced :
    (findFirstDateAboveOrAtLevel .eSecond ⟨1970, 0, 1, 0, 0, 10, 500⟩).labelDate
      = ⟨1970, 0, 1, 0, 0, 10, 0⟩ ∧
    (findFirstDateAboveOrAtLevel .eSecond ⟨1970, 0, 1, 0, 0, 10, 500⟩).labelDate.valueOf
      < (⟨1970, 0, 1, 0, 0, 10, 500⟩ : JSDate).valueOf := by
  have hm : mkDate6 1970 0 1 0 0 10 = ⟨1970, 0, 1, 0, 0, 10, 0⟩ :=
    normDate_base _ _ _ _ _ _ _ (by norm_num) (by norm_num [daysInMonth, isLeap])
      (by norm_num) (by norm_num) (by norm_num) (by norm_num)
  have h1 : (findFirstDateAboveOrAtLevel .eSecond ⟨1970, 0, 1, 0, 0, 10, 500⟩).labelDate
      = ⟨1970, 0, 1, 0, 0, 10, 0⟩ := by
    simp only [findFirstDateAboveOrAtLevel, hm]
    split_ifs <;> rfl
  refine ⟨h1, ?_⟩
  rw [h1]
  decide

/-- C4: at year level, `getNextLevelLabelForValue` applied to
June 15, 1970 returns February 1, 1971 (month index 1) — not the
aligned instant January 1, 1971 one year after the aligned-down input. -/
theorem c4_year_next_feb1 :
    (getNextLevelLabelForValue .eYear ⟨1970, 5, 15, 0, 0, 0, 0⟩).labelDate
      = ⟨1971, 1, 1, 0, 0, 0, 0⟩ ∧
    (⟨1971, 1, 1, 0, 0, 0, 0⟩ : JSDate) ≠ ⟨1971, 0, 1, 0, 0, 0, 0⟩ := by
  refine ⟨?_, by decide⟩
  have hm : mkDate3 (1970 + 1) 5 15 = ⟨1971, 5, 15, 0, 0, 0, 0⟩ := by
    have he : (1970 + 1 : Int) = 1971 := by norm_num
    rw [he]
    exact normDate_base _ _ _ _ _ _ _ (by norm_num) (by norm_num [daysInMonth, isLeap])
      (by norm_num) (by norm_num) (by norm_num) (by norm_num)
  simp only [getNextLevelLabelForValue, hm, getLevelLabelForValue, if_pos rfl]
  exact normDate_base _ _ _ _ _ _ _ (by norm_num) (by norm_num [daysInMonth, isLeap])
    (by norm_num) (by norm_num) (by norm_num) (by norm_num)

/-- The threshold table exactly as the claim states it, with each
threshold written out in milliseconds. -/
def specDetermineLevels (iMinDate iMaxDate : Int) : LevelPair :=
  if iMaxDate - iMinDate < 3 * 60000 then ⟨.eDay, .eSecond⟩
  else if iMaxDate - iMinDate < 3 * 3600000 then ⟨.eDay, .eMinute⟩
  else if iMaxDate - iMinDate < 3 * 86400000 then ⟨.eDay, .eHour⟩
  else if iMaxDate - iMinDate < 3 * (30 * 86400000) then ⟨.eMonth, .eDay⟩
  else if iMaxDate - iMinDate < 3 * (365 * 86400000) then ⟨.eYear, .eMonth⟩
  else ⟨.eYear, .eYear⟩

/-- C2: for every pair of instants `min ≤ max`, `determineLevels`
returns exactly the pair given by the claim's threshold table. -/
theorem c2_determineLevels_table (iMinDate iMaxDate : Int) (h : iMinDate ≤ iMaxDate) :
    determineLevels iMinDate iMaxDate = specDetermineLevels iMinDate iMaxDate := by
  simp only [determineLevels, specDetermineLevels, kYear, kMonth, kDay, kHour, kMinute,
    kSecond]
  norm_num

theorem c2_determineLevels_table_witness :
    (0 : Int) ≤ 90000 ∧ determineLevels 0 90000 = specDetermineLevels 0 90000 :=
  ⟨by norm_num, c2_determineLevels_table 0 90000 (by norm_num)⟩

/-- C9: for `min ≤ max` the chosen outer granularity is at least as
coarse as the inner one, and both the outer and the inner choice are
monotone in the span. -/
theorem c9_levels_order_mono (a b c d : Int) (hab : a ≤ b) (hcd : c ≤ d)
    (hspan : b - a ≤ d - c) :
    (determineLevels a b).innerLevel.toInt ≤ (determineLevels a b).outerLevel.toInt ∧
    (determineLevels a b).outerLevel.toInt ≤ (determineLevels c d).outerLevel.toInt ∧
    (determineLevels a b).innerLevel.toInt ≤ (determineLevels c d).innerLevel.toInt := by
  simp only [determineLevels, kYear, kMonth, kDay, kHour, kMinute, kSecond]
  split_ifs <;> simp only [EDateTimeLevel.toInt] <;> omega

theorem c9_levels_order_mono_witness :
    (0 : Int) ≤ 90000 ∧ (0 : Int) ≤ 10000000 ∧ (90000 : Int) - 0 ≤ 10000000 - 0 ∧
    ((determineLevels 0 90000).innerLevel.toInt ≤ (determineLevels 0 90000).outerLevel.toInt ∧
     (determineLevels 0 90000).outerLevel.toInt
       ≤ (determineLevels 0 10000000).outerLevel.toInt ∧
     (determineLevels 0 90000).innerLevel.toInt
       ≤ (determineLevels 0 10000000).innerLevel.toInt) :=
  ⟨by norm_num, by norm_num, by norm_num,
   c9_levels_order_mono 0 90000 0 10000000 (by norm_num) (by norm_num) (by norm_num)⟩

/-- C10: `determineLevels` is translation-invariant — shifting both
endpoints by the same offset leaves the chosen level pair unchanged. -/
theorem c10_translation_invariant (iMinDate iMaxDate offset : Int) :
    determineLevels (iMinDate + offset) (iMaxDate + offset)
      = determineLevels iMinDate iMaxDate := by
  unfold determineLevels
  have e : iMaxDate + offset - (iMinDate + offset) = iMaxDate - iMinDate := by ring
  rw [e]

theorem findFirst_valid (iLevel : EDateTimeLevel) (d : JSDate) :
    ((findFirstDateAboveOrAtLevel iLevel d).labelDate).Valid := by
  cases iLevel <;> simp only [findFirstDateAboveOrAtLevel] <;> split_ifs <;>
    exact normDate_valid _ _ _ _ _ _ _

/-- The tick loop of `forEachTickDo` (and `drawInnerLabels`): collect
every date below the upper bound, stepping by one unit of the level. -/
def tickDates (iLevel : EDateTimeLevel) (d : JSDate) (hd : d.Valid) (tUpper : Int) :
    List JSDate :=
  if d.valueOf < tUpper then
    d :: tickDates iLevel (getLabelForIncrementedDateAtLevel iLevel d 1).labelDate
      (incr_valid iLevel d 1) tUpper
  else []
termination_by (tUpper - d.valueOf).toNat
decreasing_by
  have h1 := incr_lower iLevel d hd 1 (by norm_num)
  omega

theorem tickDates_head (iLevel : EDateTimeLevel) (d : JSDate) (hd : d.Valid) (tUpper : Int)
    (h : d.valueOf < tUpper) : (tickDates iLevel d hd tUpper).head? = some d := by
  rw [tickDates, if_pos h]
  rfl

/-- `forEachTickDo` of the source, render-independent: the sequence of
tick instants (as `valueOf` values) visited between the bounds in
milliseconds, using the inner level from `determineLevels` and the
start date from `findFirstDateAboveOrAtLevel`. -/
def forEachTickValues (tLower tUpper : Int) : List Int :=
  (tickDates (determineLevels tLower tUpper).innerLevel
    (findFirstDateAboveOrAtLevel (determineLevels tLower tUpper).innerLevel
      (msToDate tLower)).labelDate
    (findFirst_valid _ _) tUpper).map JSDate.valueOf

/-- C6: with lower bound 10.5 s (10500 ms, not second-aligned) and
upper bound 70.5 s, the inner level is `eSecond` and the first visited
tick is the instant 10000 ms — strictly below the lower bound, so the
traversal is not confined to `[lowerBound, upperBound)`. -/
theorem c6_tick_below_lower :
    (forEachTickValues 10500 70500).head? = some 10000 ∧ (10000 : Int) < 10500 := by
  have hL : determineLevels 10500 70500 = ⟨.eDay, .eSecond⟩ := by
    norm_num [determineLevels, kMinute, kSecond]
  have hms : msToDate 10500 = ⟨1970, 0, 1, 0, 0, 10, 500⟩ := by
    simp only [msToDate, normDate]
    norm_num
    rw [normDays_base 1970 0 1 (by norm_num) (by norm_num [daysInMonth, isLeap])]
    exact ⟨rfl, rfl, rfl⟩
  have hmk : mkDate6 1970 0 1 0 0 10 = ⟨1970, 0, 1, 0, 0, 10, 0⟩ :=
    normDate_base _ _ _ _ _ _ _ (by norm_num) (by norm_num [daysInMonth, isLeap])
      (by norm_num) (by norm_num) (by norm_num) (by norm_num)
  have hf : (findFirstDateAboveOrAtLevel .eSecond ⟨1970, 0, 1, 0, 0, 10, 500⟩).labelDate
      = ⟨1970, 0, 1, 0, 0, 10, 0⟩ := by
    simp only [findFirstDateAboveOrAtLevel, hmk]
    split_ifs <;> rfl
  have hstart : (findFirstDateAboveOrAtLevel (determineLevels 10500 70500).innerLevel
      (msToDate 10500)).labelDate = ⟨1970, 0, 1, 0, 0, 10, 0⟩ := by
    rw [hL, hms]
    exact hf
  refine ⟨?_, by norm_num⟩
  unfold forEachTickValues
  rw [List.head?_map, tickDates_head _ _ _ _ (by rw [hstart]; decide), hstart]
  rfl

/-- `tHalfWidth = 5 * tTextExtent.x / 8` — the deliberate overestimate
of half the label width used by the collision test. -/
def halfWidth (w : String → ℚ) (s : String) : ℚ := 5 * w s / 8

/-- Pixel of a date: `dataToCoordinate(tDate / 1000)` (the axis mapping
`f` takes seconds; pixels are exact rationals, the idealization of the
host's floating-point coordinates). -/
def pixelOf (f : ℚ → ℚ) (d : JSDate) : ℚ := f ((d.valueOf : ℚ) / 1000)

/-- The overlap test, by orientation. -/
def overlapped : Bool → ℚ → ℚ → ℚ → Bool
  | true, pixel, hw, last => decide (pixel - hw < last)
  | false, pixel, hw, last => decide (last < pixel + hw)

/-- The `tLastPixelUsed` update after an accepted tick. -/
def lastPixelUpdate : Bool → ℚ → ℚ → ℚ
  | true, pixel, hw => pixel + hw
  | false, pixel, hw => pixel - hw

/-- One simulation pass of `findDrawValueModulus`: collision flag,
number of loop iterations executed, and the accepted placements as
(pixel, half-width) pairs. -/
structure SimResult where
  collision : Bool
  ticksSimulated : Nat
  placed : List (ℚ × ℚ)
deriving DecidableEq

/-- Prefix one accepted tick onto a simulation tail: same collision
flag, one more iteration, the placement consed on. -/
def SimResult.step (r : SimResult) (p : ℚ × ℚ) : SimResult :=
  ⟨r.collision, r.ticksSimulated + 1, p :: r.placed⟩

/-- The inner simulation loop of `findDrawValueModulus`: walk the ticks
of the level at stride `tInterval` from `tDate`, measuring each label
with `w` and testing pixel overlap against the last pixel used; stop at
the first collision or past the upper bound. -/
def simLoop (f : ℚ → ℚ) (w : String → ℚ) (horiz : Bool) (iLevel : EDateTimeLevel)
    (tUpper tInterval : Int) (hI : 1 ≤ tInterval) (tDate : JSDate) (hd : tDate.Valid)
    (tLabel : String) (tFirstTime : Bool) (tLastPixelUsed : ℚ) : SimResult :=
  if tDate.valueOf < tUpper then
    if tFirstTime || !(overlapped horiz (pixelOf f tDate) (halfWidth w tLabel) tLastPixelUsed)
    then
      SimResult.step
        (simLoop f w horiz iLevel tUpper tInterval hI
          (getLabelForIncrementedDateAtLevel iLevel tDate tInterval).labelDate
          (incr_valid iLevel tDate tInterval)
          (getLabelForIncrementedDateAtLevel iLevel tDate tInterval).labelString
          false (lastPixelUpdate horiz (pixelOf f tDate) (halfWidth w tLabel)))
        (pixelOf f tDate, halfWidth w tLabel)
    else ⟨true, 1, []⟩
  else ⟨false, 0, []⟩
termination_by (tUpper - tDate.valueOf).toNat
decreasing_by
  have h1 := incr_lower iLevel tDate hd tInterval hI
  omega

theorem simLoop_collision_lt (f : ℚ → ℚ) (w : String → ℚ) (horiz : Bool)
    (iLevel : EDateTimeLevel) (tUpper tInterval : Int) (hI : 1 ≤ tInterval) (d : JSDate)
    (hd : d.Valid) (lbl : String) (last : ℚ)
    (hc : (simLoop f w horiz iLevel tUpper tInterval hI d hd lbl true last).collision
      = true) :
    (getLabelForIncrementedDateAtLevel iLevel d tInterval).labelDate.valueOf < tUpper := by
  rw [simLoop] at hc
  by_cases h1 : d.valueOf < tUpper
  · rw [if_pos h1] at hc
    simp only [Bool.true_or, if_pos] at hc
    by_cases h2 :
        (getLabelForIncrementedDateAtLevel iLevel d tInterval).labelDate.valueOf < tUpper
    · exact h2
    · rw [simLoop, if_neg h2] at hc
      simp [SimResult.step] at hc
  · rw [if_neg h1] at hc
    simp at hc

/-- The outer search of `findDrawValueModulus`: try strides upward
from `tInterval` until a simulation pass reports no collision. -/
def findDrawValueModulusGo (f : ℚ → ℚ) (w : String → ℚ) (horiz : Bool)
    (iLevel : EDateTimeLevel) (tUpper : Int) (first : DateLabel)
    (hf : first.labelDate.Valid) (tInterval : Int) (hI : 1 ≤ tInterval) : Int :=
  if hc : (simLoop f w horiz iLevel tUpper tInterval hI first.labelDate hf
      first.labelString true 0).collision = true then
    findDrawValueModulusGo f w horiz iLevel tUpper first hf (tInterval + 1) (by omega)
  else tInterval
termination_by (tUpper - first.labelDate.valueOf + 1 - tInterval).toNat
decreasing_by
  have h1 := simLoop_collision_lt f w horiz iLevel tUpper tInterval hI first.labelDate hf
    first.labelString 0 hc
  have h2 := incr_lower iLevel first.labelDate hf tInterval hI
  omega

/-- `findDrawValueModulus(iInnerLevel, iFirstDateLabel)` as called by
`drawInnerLabels`: the first date label comes from
`findFirstDateAboveOrAtLevel` at the lower bound, and the search starts
at stride 1. -/
def findDrawValueModulus (f : ℚ → ℚ) (w : String → ℚ) (horiz : Bool)
    (iLevel : EDateTimeLevel) (tLower tUpper : Int) : Int :=
  findDrawValueModulusGo f w horiz iLevel tUpper
    (findFirstDateAboveOrAtLevel iLevel (msToDate tLower)) (findFirst_valid _ _)
    1 (by norm_num)

theorem findDrawValueModulusGo_ge (f : ℚ → ℚ) (w : String → ℚ) (horiz : Bool)
    (iLevel : EDateTimeLevel) (tUpper : Int) (first : DateLabel)
    (hf : first.labelDate.Valid) (tInterval : Int) (hI : 1 ≤ tInterval) :
    tInterval ≤ findDrawValueModulusGo f w horiz iLevel tUpper first hf tInterval hI := by
  induction tInterval, hI using findDrawValueModulusGo.induct f w horiz iLevel tUpper first hf
    with
  | case1 tInterval hI hc ih =>
      rw [findDrawValueModulusGo, dif_pos hc]
      omega
  | case2 tInterval hI hc =>
      rw [findDrawValueModulusGo, dif_neg hc]

/-- Pixel extents `[p - hw, p + hw]` pairwise disjoint in axis order. -/
def noOverlap : Bool → List (ℚ × ℚ) → Prop
  | true, l => l.Pairwise (fun a b => a.1 + a.2 ≤ b.1 - b.2)
  | false, l => l.Pairwise (fun a b => b.1 + b.2 ≤ a.1 - a.2)

/-- A placement clears the given last-pixel bound on the axis side. -/
def sideBound : Bool → ℚ → (ℚ × ℚ) → Prop
  | true, last, p => last ≤ p.1 - p.2
  | false, last, p => p.1 + p.2 ≤ last

theorem simLoop_sound (f : ℚ → ℚ) (w : String → ℚ) (horiz : Bool) (iLevel : EDateTimeLevel)
    (tUpper tInterval : Int) (hI : 1 ≤ tInterval) (hw : ∀ s, 0 ≤ w s)
    (tDate : JSDate) (hd : tDate.Valid) (tLabel : String) (tFirstTime : Bool)
    (tLastPixelUsed : ℚ) :
    (simLoop f w horiz iLevel tUpper tInterval hI tDate hd tLabel tFirstTime
        tLastPixelUsed).collision = false →
      noOverlap horiz (simLoop f w horiz iLevel tUpper tInterval hI tDate hd tLabel
        tFirstTime tLastPixelUsed).placed ∧
      (tFirstTime = false →
        ∀ p ∈ (simLoop f w horiz iLevel tUpper tInterval hI tDate hd tLabel tFirstTime
          tLastPixelUsed).placed, sideBound horiz tLastPixelUsed p) := by
  induction tDate, hd, tLabel, tFirstTime, tLastPixelUsed
    using simLoop.induct f w horiz iLevel tUpper tInterval hI with
  | case1 d hd lbl ft last h1 h2 ih =>
      intro hc
      rw [simLoop, if_pos h1, if_pos h2] at hc ⊢
      simp only [SimResult.step] at hc ⊢
      obtain ⟨hno, hbd⟩ := ih hc
      have hbd' := hbd rfl
      have hhw : 0 ≤ halfWidth w lbl := by
        unfold halfWidth
        have := hw lbl
        positivity
      cases horiz with
      | true =>
          simp only [lastPixelUpdate] at hbd'
          constructor
          · show ((pixelOf f d, halfWidth w lbl) :: _).Pairwise _
            rw [List.pairwise_cons]
            refine ⟨fun b hb => ?_, hno⟩
            have hb' := hbd' b hb
            exact hb'
          · intro hft p hp
            rw [hft] at h2
            simp only [Bool.false_or, Bool.not_eq_true'] at h2
            simp only [overlapped, decide_eq_false_iff_not, not_lt] at h2
            rcases List.mem_cons.mp hp with hp | hp
            · subst hp
              show last ≤ pixelOf f d - halfWidth w lbl
              exact h2
            · have hb' := hbd' p hp
              show last ≤ p.1 - p.2
              have hb'' : pixelOf f d + halfWidth w lbl ≤ p.1 - p.2 := hb'
              linarith
      | false =>
          simp only [lastPixelUpdate] at hbd'
          constructor
          · show ((pixelOf f d, halfWidth w lbl) :: _).Pairwise _
            rw [List.pairwise_cons]
            refine ⟨fun b hb => ?_, hno⟩
            have hb' := hbd' b hb
            exact hb'
          · intro hft p hp
            rw [hft] at h2
            simp only [Bool.false_or, Bool.not_eq_true'] at h2
            simp only [overlapped, decide_eq_false_iff_not, not_lt] at h2
            rcases List.mem_cons.mp hp with hp | hp
            · subst hp
              show pixelOf f d + halfWidth w lbl ≤ last
              exact h2
            · have hb' := hbd' p hp
              show p.1 + p.2 ≤ last
              have hb'' : p.1 + p.2 ≤ pixelOf f d - halfWidth w lbl := hb'
              linarith
  | case2 d hd lbl ft last h1 h2 =>
      intro hc
      rw [simLoop, if_pos h1, if_neg h2] at hc
      simp at hc
  | case3 d hd lbl ft last h1 =>
      intro hc
      rw [simLoop, if_neg h1]
      cases horiz <;>
        exact ⟨List.Pairwise.nil, fun _ p hp => absurd hp (List.not_mem_nil p)⟩

theorem simLoop_interval_congr (f : ℚ → ℚ) (w : String → ℚ) (horiz : Bool)
    (iLevel : EDateTimeLevel) (tUpper : Int) {i j : Int} (hi : 1 ≤ i) (hj : 1 ≤ j)
    (h : i = j) (d : JSDate) (hd : d.Valid) (lbl : String) (ft : Bool) (last : ℚ) :
    simLoop f w horiz iLevel tUpper i hi d hd lbl ft last
      = simLoop f w horiz iLevel tUpper j hj d hd lbl ft last := by
  subst h
  rfl

theorem simLoop_date_congr (f : ℚ → ℚ) (w : String → ℚ) (horiz : Bool)
    (iLevel : EDateTimeLevel) (tUpper tInterval : Int) (hI : 1 ≤ tInterval)
    {d1 d2 : JSDate} (hd1 : d1.Valid) (h : d1 = d2) (lbl : String) (ft : Bool) (last : ℚ) :
    simLoop f w horiz iLevel tUpper tInterval hI d1 hd1 lbl ft last
      = simLoop f w horiz iLevel tUpper tInterval hI d2 (h ▸ hd1) lbl ft last := by
  subst h
  rfl

theorem findDrawValueModulusGo_collision_free (f : ℚ → ℚ) (w : String → ℚ) (horiz : Bool)
    (iLevel : EDateTimeLevel) (tUpper : Int) (first : DateLabel)
    (hf : first.labelDate.Valid) (tInterval : Int) (hI : 1 ≤ tInterval) :
    ∀ (hI' : 1 ≤ findDrawValueModulusGo f w horiz iLevel tUpper first hf tInterval hI),
    (simLoop f w horiz iLevel tUpper
        (findDrawValueModulusGo f w horiz iLevel tUpper first hf tInterval hI) hI'
        first.labelDate hf first.labelString true 0).collision = false := by
  induction tInterval, hI using findDrawValueModulusGo.induct f w horiz iLevel tUpper first hf
    with
  | case1 i hI hc ih =>
      intro hI'
      have hgo : findDrawValueModulusGo f w horiz iLevel tUpper first hf i hI
          = findDrawValueModulusGo f w horiz iLevel tUpper first hf (i + 1) (by omega) := by
        rw [findDrawValueModulusGo, dif_pos hc]
      have hI2 : 1 ≤ findDrawValueModulusGo f w horiz iLevel tUpper first hf (i + 1)
          (by omega) := hgo ▸ hI'
      rw [simLoop_interval_congr f w horiz iLevel tUpper hI' hI2 hgo]
      exact ih hI2
  | case2 i hI hc =>
      intro hI'
      have hgo : findDrawValueModulusGo f w horiz iLevel tUpper first hf i hI = i := by
        rw [findDrawValueModulusGo, dif_neg hc]
      rw [simLoop_interval_congr f w horiz iLevel tUpper hI' (hgo ▸ hI') hgo]
      simp only [Bool.not_eq_true] at hc
      exact hc

/-- C8 (amended): the adaptive stride search terminates — each failed
stride strictly increases, and a sufficiently large stride pushes the
second simulated tick past the span, so a stride is always accepted —
and the stride it accepts produces a simulated layout in which no two
placed labels' pixel extents overlap (for measured widths of at least
one pixel and a pixel span of at least one label width). -/
theorem c8_stride_search_sound (f : ℚ → ℚ) (w : String → ℚ) (horiz : Bool)
    (iLevel : EDateTimeLevel) (tLower tUpper : Int)
    (hw : ∀ s, 1 ≤ w s)
    (hspan : ∀ s, w s ≤ f ((tUpper : ℚ) / 1000) - f ((tLower : ℚ) / 1000)) :
    1 ≤ findDrawValueModulus f w horiz iLevel tLower tUpper ∧
    ∀ (hI : 1 ≤ findDrawValueModulus f w horiz iLevel tLower tUpper),
      (simLoop f w horiz iLevel tUpper (findDrawValueModulus f w horiz iLevel tLower tUpper)
          hI (findFirstDateAboveOrAtLevel iLevel (msToDate tLower)).labelDate
          (findFirst_valid iLevel (msToDate tLower))
          (findFirstDateAboveOrAtLevel iLevel (msToDate tLower)).labelString
          true 0).collision = false ∧
      noOverlap horiz (simLoop f w horiz iLevel tUpper
          (findDrawValueModulus f w horiz iLevel tLower tUpper) hI
          (findFirstDateAboveOrAtLevel iLevel (msToDate tLower)).labelDate
          (findFirst_valid iLevel (msToDate tLower))
          (findFirstDateAboveOrAtLevel iLevel (msToDate tLower)).labelString
          true 0).placed := by
  refine ⟨findDrawValueModulusGo_ge f w horiz iLevel tUpper _ _ 1 (by norm_num),
    fun hI => ?_⟩
  have hcf := findDrawValueModulusGo_collision_free f w horiz iLevel tUpper
    (findFirstDateAboveOrAtLevel iLevel (msToDate tLower))
    (findFirst_valid iLevel (msToDate tLower)) 1 (by norm_num) hI
  refine ⟨hcf, ?_⟩
  exact (simLoop_sound f w horiz iLevel tUpper _ hI
    (fun s => le_trans (by norm_num) (hw s)) _ _ _ _ _ hcf).1

theorem c8_stride_search_sound_witness :
    (∀ s : String, (1 : ℚ) ≤ (fun _ : String => (1 : ℚ)) s) ∧
    (∀ s : String, (fun _ : String => (1 : ℚ)) s
        ≤ (fun q : ℚ => 10 * q) ((5000 : Int) / 1000 : ℚ)
          - (fun q : ℚ => 10 * q) ((0 : Int) / 1000 : ℚ)) ∧
    (1 ≤ findDrawValueModulus (fun q => 10 * q) (fun _ => 1) true .eSecond 0 5000 ∧
     ∀ (hI : 1 ≤ findDrawValueModulus (fun q => 10 * q) (fun _ => 1) true .eSecond 0 5000),
      (simLoop (fun q => 10 * q) (fun _ => 1) true .eSecond 5000
          (findDrawValueModulus (fun q => 10 * q) (fun _ => 1) true .eSecond 0 5000)
          hI (findFirstDateAboveOrAtLevel .eSecond (msToDate 0)).labelDate
          (findFirst_valid .eSecond (msToDate 0))
          (findFirstDateAboveOrAtLevel .eSecond (msToDate 0)).labelString
          true 0).collision = false ∧
      noOverlap true (simLoop (fun q => 10 * q) (fun _ => 1) true .eSecond 5000
          (findDrawValueModulus (fun q => 10 * q) (fun _ => 1) true .eSecond 0 5000) hI
          (findFirstDateAboveOrAtLevel .eSecond (msToDate 0)).labelDate
          (findFirst_valid .eSecond (msToDate 0))
          (findFirstDateAboveOrAtLevel .eSecond (msToDate 0)).labelString
          true 0).placed) :=
  ⟨fun _ => le_refl 1, fun _ => by norm_num,
   c8_stride_search_sound (fun q => 10 * q) (fun _ => 1) true .eSecond 0 5000
     (fun _ => le_refl 1) (fun _ => by norm_num)⟩

/-- C8 (counterexample): a geometry and measurement function inside the
claim's hypotheses — every measured label width is 1, and the pixel
span of the mapping `q ↦ q / 4` over [0 ms, 6000 ms) at second level is
3/2, at least one label width — on which strides 3 and 4 both fail
(each simulation pass collides), yet the failed-stride increase from 3
to 4 does not strictly reduce the number of ticks simulated: both
passes simulate exactly 2 ticks (and the full-span tick counts,
ceil(6/3) = ceil(6/4) = 2, agree as well). -/
theorem c8_ticks_not_reduced :
    (∀ s : String, (1 : ℚ) ≤ (fun _ : String => (1 : ℚ)) s) ∧
    (∀ s : String, (fun _ : String => (1 : ℚ)) s
        ≤ (fun q : ℚ => q / 4) (((6000 : Int) : ℚ) / 1000)
          - (fun q : ℚ => q / 4) (((0 : Int) : ℚ) / 1000)) ∧
    findFirstDateAboveOrAtLevel .eSecond (msToDate 0)
      = ⟨"0", ⟨1970, 0, 1, 0, 0, 0, 0⟩⟩ ∧
    (simLoop (fun q => q / 4) (fun _ => 1) true .eSecond 6000 3 (by norm_num)
        ⟨1970, 0, 1, 0, 0, 0, 0⟩ (by decide) "0" true 0).collision = true ∧
    (simLoop (fun q => q / 4) (fun _ => 1) true .eSecond 6000 4 (by norm_num)
        ⟨1970, 0, 1, 0, 0, 0, 0⟩ (by decide) "0" true 0).collision = true ∧
    ¬ ((simLoop (fun q => q / 4) (fun _ => 1) true .eSecond 6000 4 (by norm_num)
        ⟨1970, 0, 1, 0, 0, 0, 0⟩ (by decide) "0" true 0).ticksSimulated
      < (simLoop (fun q => q / 4) (fun _ => 1) true .eSecond 6000 3 (by norm_num)
        ⟨1970, 0, 1, 0, 0, 0, 0⟩ (by decide) "0" true 0).ticksSimulated) := by
  have hmk0 : mkDate6 1970 0 1 0 0 0 = ⟨1970, 0, 1, 0, 0, 0, 0⟩ :=
    normDate_base _ _ _ _ _ _ _ (by norm_num) (by norm_num [daysInMonth, isLeap])
      (by norm_num) (by norm_num) (by norm_num) (by norm_num)
  have hms0 : msToDate 0 = ⟨1970, 0, 1, 0, 0, 0, 0⟩ :=
    normDate_base _ _ _ _ _ _ _ (by norm_num) (by norm_num [daysInMonth, isLeap])
      (by norm_num) (by norm_num) (by norm_num) (by norm_num)
  have hfirst : findFirstDateAboveOrAtLevel .eSecond (msToDate 0)
      = ⟨"0", ⟨1970, 0, 1, 0, 0, 0, 0⟩⟩ := by
    rw [hms0]
    simp only [findFirstDateAboveOrAtLevel, hmk0]
    split <;> decide
  have h3 : (getLabelForIncrementedDateAtLevel .eSecond ⟨1970, 0, 1, 0, 0, 0, 0⟩
      3).labelDate = ⟨1970, 0, 1, 0, 0, 3, 0⟩ := by
    simp only [getLabelForIncrementedDateAtLevel, mkDate6]
    norm_num
    exact normDate_base _ _ _ _ _ _ _ (by norm_num) (by norm_num [daysInMonth, isLeap])
      (by norm_num) (by norm_num) (by norm_num) (by norm_num)
  have h4 : (getLabelForIncrementedDateAtLevel .eSecond ⟨1970, 0, 1, 0, 0, 0, 0⟩
      4).labelDate = ⟨1970, 0, 1, 0, 0, 4, 0⟩ := by
    simp only [getLabelForIncrementedDateAtLevel, mkDate6]
    norm_num
    exact normDate_base _ _ _ _ _ _ _ (by norm_num) (by norm_num [daysInMonth, isLeap])
      (by norm_num) (by norm_num) (by norm_num) (by norm_num)
  have hD3v : JSDate.valueOf ⟨1970, 0, 1, 0, 0, 3, 0⟩ = 3000 := by decide
  have hD4v : JSDate.valueOf ⟨1970, 0, 1, 0, 0, 4, 0⟩ = 4000 := by decide
  have hD0v : JSDate.valueOf ⟨1970, 0, 1, 0, 0, 0, 0⟩ = 0 := by decide
  have hrest3 : simLoop (fun q => q / 4) (fun _ => 1) true .eSecond 6000 3 (by norm_num)
      (getLabelForIncrementedDateAtLevel .eSecond ⟨1970, 0, 1, 0, 0, 0, 0⟩ 3).labelDate
      (incr_valid .eSecond ⟨1970, 0, 1, 0, 0, 0, 0⟩ 3)
      (getLabelForIncrementedDateAtLevel .eSecond ⟨1970, 0, 1, 0, 0, 0, 0⟩ 3).labelString
      false (lastPixelUpdate true (pixelOf (fun q => q / 4) ⟨1970, 0, 1, 0, 0, 0, 0⟩)
        (halfWidth (fun _ => 1) "0"))
      = ⟨true, 1, []⟩ := by
    rw [simLoop_date_congr _ _ _ _ _ _ _ _ h3]
    rw [simLoop, if_pos (show JSDate.valueOf ⟨1970, 0, 1, 0, 0, 3, 0⟩ < 6000 by decide)]
    rw [if_neg ?_]
    simp only [Bool.false_or, Bool.not_eq_true', overlapped, lastPixelUpdate, pixelOf,
      halfWidth, hD3v, hD0v, decide_eq_false_iff_not, not_not, not_lt, not_le]
    norm_num
  have hrest4 : simLoop (fun q => q / 4) (fun _ => 1) true .eSecond 6000 4 (by norm_num)
      (getLabelForIncrementedDateAtLevel .eSecond ⟨1970, 0, 1, 0, 0, 0, 0⟩ 4).labelDate
      (incr_valid .eSecond ⟨1970, 0, 1, 0, 0, 0, 0⟩ 4)
      (getLabelForIncrementedDateAtLevel .eSecond ⟨1970, 0, 1, 0, 0, 0, 0⟩ 4).labelString
      false (lastPixelUpdate true (pixelOf (fun q => q / 4) ⟨1970, 0, 1, 0, 0, 0, 0⟩)
        (halfWidth (fun _ => 1) "0"))
      = ⟨true, 1, []⟩ := by
    rw [simLoop_date_congr _ _ _ _ _ _ _ _ h4]
    rw [simLoop, if_pos (show JSDate.valueOf ⟨1970, 0, 1, 0, 0, 4, 0⟩ < 6000 by decide)]
    rw [if_neg ?_]
    simp only [Bool.false_or, Bool.not_eq_true', overlapped, lastPixelUpdate, pixelOf,
      halfWidth, hD4v, hD0v, decide_eq_false_iff_not, not_not, not_lt, not_le]
    norm_num
  have hrun3 : simLoop (fun q => q / 4) (fun _ => 1) true .eSecond 6000 3 (by norm_num)
      ⟨1970, 0, 1, 0, 0, 0, 0⟩ (by decide) "0" true 0
      = SimResult.step ⟨true, 1, []⟩
          (pixelOf (fun q => q / 4) ⟨1970, 0, 1, 0, 0, 0, 0⟩,
           halfWidth (fun _ => 1) "0") := by
    rw [simLoop, if_pos (show JSDate.valueOf ⟨1970, 0, 1, 0, 0, 0, 0⟩ < 6000 by decide),
      if_pos (Bool.true_or _), hrest3]
  have hrun4 : simLoop (fun q => q / 4) (fun _ => 1) true .eSecond 6000 4 (by norm_num)
      ⟨1970, 0, 1, 0, 0, 0, 0⟩ (by decide) "0" true 0
      = SimResult.step ⟨true, 1, []⟩
          (pixelOf (fun q => q / 4) ⟨1970, 0, 1, 0, 0, 0, 0⟩,
           halfWidth (fun _ => 1) "0") := by
    rw [simLoop, if_pos (show JSDate.valueOf ⟨1970, 0, 1, 0, 0, 0, 0⟩ < 6000 by decide),
      if_pos (Bool.true_or _), hrest4]
  refine ⟨fun _ => le_refl 1, fun _ => by norm_num, hfirst, ?_, ?_, ?_⟩
  · rw [hrun3]
    rfl
  · rw [hrun4]
    rfl
  · rw [hrun3, hrun4]
    simp [SimResult.step]
